import Mathlib

/-!
Verification of the hierarchical selection-and-aggregation engine of the
analytics dashboard: the selected-error context
(`src/contexts/selected-error-context.tsx`) and the error-distribution card
(`src/components/analytics/overview/error-distribution-card.tsx`).

The embedding models records (`FormattedBotData`), the taxonomy extractor
(`getErrorTable`), the filter engine (`getFilteredBots`), the distribution
aggregator (`expandedErrorData` and the chart-data effect), and the
selection-state session (hydration, user operations, cross-session storage
events, and the pruning effect) as executable Lean definitions, and proves
the specified properties about them.
-/

/-- The four status kinds carried by a record
(`allStatuses` in the filter options module). -/
inductive StatusType
  | success
  | error
  | warning
  | pending
deriving DecidableEq, Repr

/-- The `status` object of a record: `{type, value, message}`.
`value` is the error category key, `message` the finer-grained error text. -/
structure Status where
  type : StatusType
  value : String
  message : String
deriving DecidableEq, Repr

/-- A bot-run record as consumed by the engine: a stable unique identifier
plus its status.  Domain attributes irrelevant to the engine are omitted. -/
structure FormattedBotData where
  uuid : String
  status : Status
deriving DecidableEq, Repr

/-- The check `["error", "warning"].includes(bot.status.type)`. -/
def isErrWarn (b : FormattedBotData) : Bool :=
  decide (b.status.type = StatusType.error ∨ b.status.type = StatusType.warning)

/-- The check `bot.status.type === "pending" || bot.status.type === "success"`. -/
def isPassThrough (b : FormattedBotData) : Bool :=
  decide (b.status.type = StatusType.pending ∨ b.status.type = StatusType.success)

/-- Helper for `uniqueKeys`: keeps each string not already seen, threading
the set of seen strings. -/
def uniqueKeysAux (seen : List String) : List String → List String
  | [] => []
  | c :: rest =>
    if c ∈ seen then uniqueKeysAux seen rest
    else c :: uniqueKeysAux (c :: seen) rest

/-- First occurrence of every string, in order of first appearance
(the key order produced by lodash `groupBy`). -/
def uniqueKeys (l : List String) : List String := uniqueKeysAux [] l

/-- lodash `groupBy(bots, "status.value")`: association list from each
distinct `status.value` (in first-appearance order) to its member records. -/
def groupByValue (bots : List FormattedBotData) : List (String × List FormattedBotData) :=
  (uniqueKeys (bots.map (fun b => b.status.value))).map
    (fun c => (c, bots.filter (fun b => decide (b.status.value = c))))

/-- One row of the error table: an error subtype of category `originalType`,
with the uuids of its member records. -/
structure ErrorTableEntry where
  type : String
  originalType : String
  message : String
  botUuids : List String
deriving DecidableEq, Repr

/-- The subtype label of a record under category `cat`: `status.message` when
it is present and differs from the category key, else the category label
itself (so a category whose records carry no distinguishing message gets a
single synthesized subtype equal to its own label). -/
def subtypeLabel (cat : String) (b : FormattedBotData) : String :=
  if b.status.message = "" ∨ b.status.message = cat then cat else b.status.message

/-- The subtype rows derived from one category group: one entry per distinct
subtype label, carrying the member uuids of the records with that label. -/
def subtypeEntries (cat : String) (bs : List FormattedBotData) : List ErrorTableEntry :=
  (uniqueKeys (bs.map (subtypeLabel cat))).map
    (fun lab =>
      { type := cat
        originalType := cat
        message := lab
        botUuids := (bs.filter (fun b => decide (subtypeLabel cat b = lab))).map
          (fun b => b.uuid) })

/-- Modelled from the spec: `getErrorTable` lives in `@/lib/format-bot-stats`,
which is not part of the provided sources; only its callers are.  Per the
spec's Taxonomy Extractor, it takes the `groupBy`-ed error distribution and
derives, per category, one `ErrorTableEntry` per distinct subtype label
(label = `status.message` when it differs from the category key and is
nonempty, else the category's own label), each carrying the member record
uuids. -/
def getErrorTable (groups : List (String × List FormattedBotData)) : List ErrorTableEntry :=
  groups.flatMap (fun g => subtypeEntries g.1 g.2)

/-- The composite subtype key of an entry, as built by both consumers:
`"originalType::subtypeName"` with
`subtypeName = (type === originalType ? message : type)`. -/
def subtypeKeyOf (e : ErrorTableEntry) : String :=
  e.originalType ++ "::" ++ (if e.type = e.originalType then e.message else e.type)

/-- The error table of the full record collection: filter to error/warning
records, group by `status.value`, and tabulate
(the recomputation done inside `canExpand` and `getFilteredBots`). -/
def errorTableOf (allBots : List FormattedBotData) : List ErrorTableEntry :=
  getErrorTable (groupByValue (allBots.filter isErrWarn))

/-- The `canExpand` of the selected-error context: an error type is expandable
iff the full collection's error table has more than one entry for it. -/
def canExpand (allBots : List FormattedBotData) (errorType : String) : Bool :=
  decide (1 < ((errorTableOf allBots).filter
    (fun e => decide (e.originalType = errorType))).length)

/-- The uuid set gathered from all error-table entries whose composite key is
currently selected (`selectedSubtypeUuids` in `getFilteredBots`). -/
def selectedSubtypeUuids (allBots : List FormattedBotData) (subtypes : List String) :
    List String :=
  ((errorTableOf allBots).filter (fun e => decide (subtypeKeyOf e ∈ subtypes))).flatMap
    (fun e => e.botUuids)

/-- The filter engine `getFilteredBots(errorValues, subtypes)` of the
selected-error context: pending/success records always pass; error/warning
records pass when their category is selected; when any subtype is selected,
records of expandable selected categories additionally need their uuid among
the selected subtypes' members. -/
def getFilteredBots (allBots : List FormattedBotData) (errorValues : List String)
    (subtypes : List String) : List FormattedBotData :=
  let filtered := allBots.filter
    (fun b => isPassThrough b || decide (b.status.value ∈ errorValues))
  if subtypes.isEmpty then filtered
  else
    let selUuids := selectedSubtypeUuids allBots subtypes
    filtered.filter (fun b =>
      if isPassThrough b then true
      else if canExpand allBots b.status.value && decide (b.status.value ∈ errorValues) then
        decide (b.uuid ∈ selUuids)
      else
        decide (b.status.value ∈ errorValues))

/-- C2 helper: with no category selected, stage one keeps exactly the
pass-through records. -/
theorem getFilteredBots_nil_cats (bots : List FormattedBotData) (subs : List String) :
    getFilteredBots bots [] subs = bots.filter isPassThrough := by
  unfold getFilteredBots
  have h1 : bots.filter (fun b => isPassThrough b || decide (b.status.value ∈ ([] : List String)))
      = bots.filter isPassThrough := by
    apply List.filter_congr
    intro b _
    simp
  by_cases hs : subs.isEmpty
  · simp only [hs, if_true]
    exact h1
  · simp only [hs, if_false, h1]
    apply List.filter_eq_self.mpr
    intro b hb
    have hp := (List.mem_filter.mp hb).2
    simp only [hp, if_true]

/-- C2: with `selectedCategories` empty, the filter output is exactly the
pending/success records: no error/warning record is included, regardless of
the subtype selection, and every pending/success record is kept. -/
theorem filter_empty_categories_drops_all_errors (bots : List FormattedBotData)
    (subs : List String) :
    ∀ b ∈ bots,
      ((b.status.type = StatusType.error ∨ b.status.type = StatusType.warning) →
        b ∉ getFilteredBots bots [] subs) ∧
      ((b.status.type = StatusType.pending ∨ b.status.type = StatusType.success) →
        b ∈ getFilteredBots bots [] subs) := by
  intro b hb
  rw [getFilteredBots_nil_cats]
  constructor
  · intro herr hmem
    have hp := (List.mem_filter.mp hmem).2
    unfold isPassThrough at hp
    rcases herr with h | h <;> simp [h] at hp
  · intro hps
    apply List.mem_filter.mpr
    refine ⟨hb, ?_⟩
    unfold isPassThrough
    rcases hps with h | h <;> simp [h]

/-- C2 witness: concrete evaluation on a two-record collection. -/
theorem filter_empty_categories_drops_all_errors_witness :
    (⟨"u1", ⟨StatusType.error, "A", "m"⟩⟩ : FormattedBotData) ∉
        getFilteredBots
          [⟨"u1", ⟨StatusType.error, "A", "m"⟩⟩, ⟨"u2", ⟨StatusType.success, "", ""⟩⟩]
          [] ["A::m"] ∧
      (⟨"u2", ⟨StatusType.success, "", ""⟩⟩ : FormattedBotData) ∈
        getFilteredBots
          [⟨"u1", ⟨StatusType.error, "A", "m"⟩⟩, ⟨"u2", ⟨StatusType.success, "", ""⟩⟩]
          [] ["A::m"] := by
  have h := filter_empty_categories_drops_all_errors
    [⟨"u1", ⟨StatusType.error, "A", "m"⟩⟩, ⟨"u2", ⟨StatusType.success, "", ""⟩⟩] ["A::m"]
  exact ⟨(h _ (by decide)).1 (Or.inl rfl), (h _ (by decide)).2 (Or.inr rfl)⟩

/-- C6: with subtypes held empty, the filter is monotone in the category
selection: everything passing under `S1 ⊆ S2` also passes under `S2`. -/
theorem filter_monotone_in_categories (bots : List FormattedBotData)
    (S1 S2 : List String) (hsub : S1 ⊆ S2) :
    ∀ b ∈ getFilteredBots bots S1 [], b ∈ getFilteredBots bots S2 [] := by
  intro b hb
  unfold getFilteredBots at hb ⊢
  simp only [List.isEmpty_nil, if_true] at hb ⊢
  have := List.mem_filter.mp hb
  apply List.mem_filter.mpr
  refine ⟨this.1, ?_⟩
  have h2 := this.2
  simp only [Bool.or_eq_true, decide_eq_true_eq] at h2 ⊢
  rcases h2 with h | h
  · exact Or.inl h
  · exact Or.inr (hsub h)

/-- C6 witness: concrete evaluation with `S1 = ["A"] ⊆ S2 = ["A", "B"]`. -/
theorem filter_monotone_in_categories_witness :
    (⟨"u1", ⟨StatusType.error, "A", "m"⟩⟩ : FormattedBotData) ∈
      getFilteredBots [⟨"u1", ⟨StatusType.error, "A", "m"⟩⟩] ["A", "B"] [] := by
  have h := filter_monotone_in_categories [⟨"u1", ⟨StatusType.error, "A", "m"⟩⟩]
    ["A"] ["A", "B"] (by intro x hx; fin_cases hx <;> decide)
  exact h _ (by decide)

/-- Membership in the accumulator-threaded dedup. -/
theorem mem_uniqueKeysAux (a : String) :
    ∀ l seen : List String, a ∈ uniqueKeysAux seen l ↔ a ∈ l ∧ a ∉ seen := by
  intro l
  induction l with
  | nil => intro seen; simp [uniqueKeysAux]
  | cons c rest ih =>
    intro seen
    by_cases hc : c ∈ seen
    · rw [uniqueKeysAux, if_pos hc, ih]
      constructor
      · rintro ⟨h1, h2⟩
        exact ⟨List.mem_cons_of_mem _ h1, h2⟩
      · rintro ⟨h1, h2⟩
        rcases List.mem_cons.mp h1 with rfl | h1
        · exact absurd hc h2
        · exact ⟨h1, h2⟩
    · rw [uniqueKeysAux, if_neg hc]
      simp only [List.mem_cons, ih]
      constructor
      · rintro (rfl | ⟨h1, h2⟩)
        · exact ⟨Or.inl rfl, hc⟩
        · exact ⟨Or.inr h1, fun hs => h2 (Or.inr hs)⟩
      · rintro ⟨h1 | h1, h2⟩
        · exact Or.inl h1
        · by_cases hac : a = c
          · exact Or.inl hac
          · refine Or.inr ⟨h1, ?_⟩
            rintro (h | h)
            · exact hac h
            · exact h2 h

/-- Membership in `uniqueKeys` is membership in the original list. -/
theorem mem_uniqueKeys (a : String) (l : List String) : a ∈ uniqueKeys l ↔ a ∈ l := by
  rw [uniqueKeys, mem_uniqueKeysAux]
  simp

/-- The accumulator-threaded dedup has no duplicates. -/
theorem nodup_uniqueKeysAux : ∀ l seen : List String, (uniqueKeysAux seen l).Nodup := by
  intro l
  induction l with
  | nil => intro seen; simp [uniqueKeysAux]
  | cons c rest ih =>
    intro seen
    by_cases hc : c ∈ seen
    · rw [uniqueKeysAux, if_pos hc]
      exact ih seen
    · rw [uniqueKeysAux, if_neg hc]
      refine List.nodup_cons.mpr ⟨?_, ih _⟩
      rw [mem_uniqueKeysAux]
      rintro ⟨_, h⟩
      exact h (List.mem_cons_self _ _)

/-- The result of `uniqueKeys` has no duplicates. -/
theorem nodup_uniqueKeys (l : List String) : (uniqueKeys l).Nodup :=
  nodup_uniqueKeysAux l []

/-- Filtering distributes over `flatMap`. -/
theorem filter_flatMap {α β : Type} (l : List α) (f : α → List β) (p : β → Bool) :
    (l.flatMap f).filter p = l.flatMap (fun a => (f a).filter p) := by
  induction l with
  | nil => simp
  | cons x xs ih => simp [List.flatMap_cons, List.filter_append, ih]

/-- A `flatMap` of a one-point conditional over a duplicate-free key list. -/
theorem flatMap_ite_nodup {α : Type} (c : String) (f : String → List α) :
    ∀ ks : List String, ks.Nodup →
      (ks.flatMap fun k => if k = c then f k else []) = if c ∈ ks then f c else [] := by
  intro ks hnd
  induction ks with
  | nil => simp
  | cons k rest ih =>
    have hnd2 := List.nodup_cons.mp hnd
    rw [List.flatMap_cons, ih hnd2.2]
    by_cases hk : k = c
    · subst hk
      simp [hnd2.1]
    · rw [if_neg hk, List.nil_append]
      have hck : ¬c = k := fun h => hk h.symm
      simp [List.mem_cons, hck]

/-- Every entry produced for group `(k, bs)` carries `originalType = k`. -/
theorem originalType_of_mem_subtypeEntries (k : String) (bs : List FormattedBotData)
    (e : ErrorTableEntry) (he : e ∈ subtypeEntries k bs) : e.originalType = k := by
  unfold subtypeEntries at he
  obtain ⟨lab, _, rfl⟩ := List.mem_map.mp he
  rfl

/-- The error-table rows of one category: filtering the full table for
`originalType = c` yields exactly the entries derived from the records whose
`status.value` is `c`. -/
theorem filter_getErrorTable (l : List FormattedBotData) (c : String) :
    (getErrorTable (groupByValue l)).filter (fun e => decide (e.originalType = c))
      = subtypeEntries c (l.filter (fun b => decide (b.status.value = c))) := by
  unfold getErrorTable groupByValue
  rw [List.flatMap_map, filter_flatMap]
  have hpt : ∀ k : String,
      (subtypeEntries k (l.filter (fun b => decide (b.status.value = k)))).filter
          (fun e => decide (e.originalType = c))
        = if k = c then subtypeEntries k (l.filter (fun b => decide (b.status.value = k)))
          else [] := by
    intro k
    by_cases hk : k = c
    · rw [if_pos hk]
      apply List.filter_eq_self.mpr
      intro e he
      rw [originalType_of_mem_subtypeEntries k _ e he]
      simp [hk]
    · rw [if_neg hk]
      apply List.filter_eq_nil_iff.mpr
      intro e he
      rw [originalType_of_mem_subtypeEntries k _ e he]
      simp [hk]
  calc ((uniqueKeys (l.map fun b => b.status.value)).flatMap fun a =>
          (subtypeEntries a (l.filter fun b => decide (b.status.value = a))).filter
            fun e => decide (e.originalType = c))
      = (uniqueKeys (l.map fun b => b.status.value)).flatMap fun k =>
          if k = c then subtypeEntries k (l.filter fun b => decide (b.status.value = k))
          else [] := by
        apply List.flatMap_congr
        intro k _
        exact hpt k
    _ = subtypeEntries c (l.filter fun b => decide (b.status.value = c)) := by
        rw [flatMap_ite_nodup c _ _ (nodup_uniqueKeys _)]
        by_cases hc : c ∈ uniqueKeys (l.map fun b => b.status.value)
        · rw [if_pos hc]
        · rw [if_neg hc]
          rw [mem_uniqueKeys] at hc
          have hnil : l.filter (fun b => decide (b.status.value = c)) = [] := by
            apply List.filter_eq_nil_iff.mpr
            intro b hb
            simp only [decide_eq_true_eq]
            intro hv
            exact hc (List.mem_map.mpr ⟨b, hb, hv⟩)
          rw [hnil]
          simp [subtypeEntries, uniqueKeys, uniqueKeysAux]

/-- The `allErrorBots` of the error-distribution card: the error/warning records
whose category is among the currently selected error types. -/
def allErrorBots (allBots : List FormattedBotData) (selectedErrorValues : List String) :
    List FormattedBotData :=
  allBots.filter (fun b => isErrWarn b && decide (b.status.value ∈ selectedErrorValues))

/-- The `canExpand` of the error-distribution card: computed over `allErrorBots`
(the records of the *selected* categories) restricted to the queried type. -/
def cardCanExpand (allBots : List FormattedBotData) (selectedErrorValues : List String)
    (errorType : String) : Bool :=
  let errorBots := (allErrorBots allBots selectedErrorValues).filter
    (fun b => decide (b.status.value = errorType))
  decide (1 < ((getErrorTable (groupByValue errorBots)).filter
    (fun e => decide (e.originalType = errorType))).length)

/-- C4 (amended): the card's `canExpand` agrees with the context's
`canExpand` for every *currently selected* category; for unselected
categories the card sees no records and reports `false`. -/
theorem cardCanExpand_eq_canExpand_of_selected (allBots : List FormattedBotData)
    (sel : List String) (c : String) (hc : c ∈ sel) :
    cardCanExpand allBots sel c = canExpand allBots c := by
  unfold cardCanExpand canExpand errorTableOf allErrorBots
  have hbots :
      ((allBots.filter fun b => isErrWarn b && decide (b.status.value ∈ sel)).filter
          fun b => decide (b.status.value = c))
        = (allBots.filter isErrWarn).filter (fun b => decide (b.status.value = c)) := by
    rw [List.filter_filter, List.filter_filter]
    apply List.filter_congr
    intro b _
    by_cases hv : b.status.value = c
    · simp [hv, hc]
    · simp [hv]
  simp only [hbots, filter_getErrorTable]
  have hidem : List.filter (fun b => decide (b.status.value = c))
        (List.filter (fun b => decide (b.status.value = c)) (List.filter isErrWarn allBots))
      = List.filter (fun b => decide (b.status.value = c)) (List.filter isErrWarn allBots) := by
    apply List.filter_eq_self.mpr
    intro b hb
    exact (List.mem_filter.mp hb).2
  rw [hidem]

/-- C4 witness: concrete agreement for a selected expandable category. -/
theorem cardCanExpand_eq_canExpand_of_selected_witness :
    cardCanExpand
        [⟨"u1", ⟨StatusType.error, "A", "m1"⟩⟩, ⟨"u2", ⟨StatusType.error, "A", "m2"⟩⟩]
        ["A"] "A"
      = canExpand
          [⟨"u1", ⟨StatusType.error, "A", "m1"⟩⟩, ⟨"u2", ⟨StatusType.error, "A", "m2"⟩⟩]
          "A" :=
  cardCanExpand_eq_canExpand_of_selected _ ["A"] "A" (by decide)

/-- C4 counterexample: the two `canExpand` implementations disagree on a
category that is expandable in the full collection but not currently
selected — the card computes over the selection-restricted records, so
expandability is not independent of the current selection. -/
theorem cardCanExpand_ne_canExpand_when_unselected :
    cardCanExpand
        [⟨"u1", ⟨StatusType.error, "A", "m1"⟩⟩, ⟨"u2", ⟨StatusType.error, "A", "m2"⟩⟩]
        [] "A"
      ≠ canExpand
          [⟨"u1", ⟨StatusType.error, "A", "m1"⟩⟩, ⟨"u2", ⟨StatusType.error, "A", "m2"⟩⟩]
          "A" := by
  decide

/-- Unfolds membership in the selected-subtype uuid set. -/
theorem mem_selectedSubtypeUuids (allBots : List FormattedBotData) (subs : List String)
    (u : String) :
    u ∈ selectedSubtypeUuids allBots subs ↔
      ∃ e ∈ errorTableOf allBots, subtypeKeyOf e ∈ subs ∧ u ∈ e.botUuids := by
  unfold selectedSubtypeUuids
  rw [List.mem_flatMap]
  constructor
  · rintro ⟨e, he, hu⟩
    have h := List.mem_filter.mp he
    exact ⟨e, h.1, by simpa using h.2, hu⟩
  · rintro ⟨e, he, hk, hu⟩
    exact ⟨e, List.mem_filter.mpr ⟨he, by simpa using hk⟩, hu⟩

/-- Every uuid stored in an error-table entry belongs to an error/warning
record of the entry's own category. -/
theorem botUuids_spec (allBots : List FormattedBotData) (e : ErrorTableEntry)
    (he : e ∈ errorTableOf allBots) (u : String) (hu : u ∈ e.botUuids) :
    ∃ b ∈ allBots, isErrWarn b = true ∧ b.status.value = e.originalType ∧ b.uuid = u := by
  unfold errorTableOf getErrorTable groupByValue at he
  obtain ⟨g, hg, heg⟩ := List.mem_flatMap.mp he
  obtain ⟨kk, _, rfl⟩ := List.mem_map.mp hg
  unfold subtypeEntries at heg
  obtain ⟨lab, _, rfl⟩ := List.mem_map.mp heg
  simp only at hu
  obtain ⟨b, hb, rfl⟩ := List.mem_map.mp hu
  have hb2 := List.mem_filter.mp hb
  have hb3 := List.mem_filter.mp hb2.1
  have hb4 := List.mem_filter.mp hb3.1
  refine ⟨b, hb4.1, hb4.2, ?_, rfl⟩
  simpa using hb3.2

/-- The `addSubtype` set insertion: append the composite key unless present. -/
def insertSubtype (k : String) (l : List String) : List String :=
  if k ∈ l then l else l ++ [k]

/-- C1 (amended): toggling (adding or removing) a composite subtype key whose
matching error-table entries all have a non-expandable parent does not change
the filter output, *provided the subtype selection is nonempty both before and
after the toggle* (and record uuids are unique).  Toggling the key across the
empty-selection boundary can change the output, because a nonempty subtype
selection activates uuid filtering for all expandable selected categories. -/
theorem inert_subtype_toggle_preserves_filter (allBots : List FormattedBotData)
    (errorValues S1 S2 : List String) (k : String)
    (hnodup : (allBots.map (fun b => b.uuid)).Nodup)
    (hinert : ∀ e ∈ errorTableOf allBots, subtypeKeyOf e = k →
      canExpand allBots e.originalType = false)
    (htoggle : S2 = insertSubtype k S1 ∨ S2 = S1.filter (fun j => decide (j ≠ k)))
    (h1 : S1 ≠ []) (h2 : S2 ≠ []) :
    getFilteredBots allBots errorValues S2 = getFilteredBots allBots errorValues S1 := by
  have hagree : ∀ j, j ≠ k → (j ∈ S2 ↔ j ∈ S1) := by
    intro j hj
    rcases htoggle with rfl | rfl
    · unfold insertSubtype
      by_cases hk : k ∈ S1
      · rw [if_pos hk]
      · rw [if_neg hk]
        simp only [List.mem_append, List.mem_singleton]
        exact ⟨fun h => h.resolve_right hj, Or.inl⟩
    · simp [List.mem_filter, hj]
  have hsel : ∀ b ∈ allBots, canExpand allBots b.status.value = true →
      (b.uuid ∈ selectedSubtypeUuids allBots S2 ↔
        b.uuid ∈ selectedSubtypeUuids allBots S1) := by
    intro b hb hexp
    have key : ∀ T1 T2 : List String, (∀ j, j ≠ k → (j ∈ T1 ↔ j ∈ T2)) →
        b.uuid ∈ selectedSubtypeUuids allBots T1 → b.uuid ∈ selectedSubtypeUuids allBots T2 := by
      intro T1 T2 hag hmem
      obtain ⟨e, he, hkey, hu⟩ := (mem_selectedSubtypeUuids _ _ _).mp hmem
      by_cases hek : subtypeKeyOf e = k
      · exfalso
        obtain ⟨bb, hbb, _, hval, huid⟩ := botUuids_spec allBots e he _ hu
        have hbbe : bb = b := List.inj_on_of_nodup_map hnodup hbb hb huid
        rw [hbbe] at hval
        have hfalse := hinert e he hek
        rw [← hval] at hfalse
        rw [hexp] at hfalse
        exact Bool.true_eq_false.mp hfalse
      · exact (mem_selectedSubtypeUuids _ _ _).mpr ⟨e, he, (hag _ hek).mp hkey, hu⟩
    exact ⟨key S2 S1 hagree, key S1 S2 (fun j hj => (hagree j hj).symm)⟩
  unfold getFilteredBots
  have he1 : S1.isEmpty = false := by simpa using h1
  have he2 : S2.isEmpty = false := by simpa using h2
  simp only [he1, he2, Bool.false_eq_true, if_false]
  apply List.filter_congr
  intro b hb
  have hball : b ∈ allBots := (List.mem_filter.mp hb).1
  by_cases hpass : isPassThrough b = true
  · simp [hpass]
  · simp only [Bool.not_eq_true] at hpass
    simp only [hpass, Bool.false_eq_true, if_false]
    by_cases hcond : (canExpand allBots b.status.value
        && decide (b.status.value ∈ errorValues)) = true
    · simp only [hcond, if_true]
      have hexp := (Bool.and_eq_true _ _ |>.mp hcond).1
      exact Bool.decide_congr (hsel b hball hexp)
    · simp only [Bool.not_eq_true] at hcond
      simp only [hcond, Bool.false_eq_true, if_false]

/-- C1 witness: toggling the inert key `"B::x"` while another subtype stays
selected leaves the filter output unchanged. -/
theorem inert_subtype_toggle_preserves_filter_witness :
    getFilteredBots
        [⟨"u1", ⟨StatusType.error, "A", "m1"⟩⟩, ⟨"u2", ⟨StatusType.error, "A", "m2"⟩⟩,
          ⟨"u3", ⟨StatusType.error, "B", "x"⟩⟩]
        ["A", "B"] ["A::m1", "B::x"]
      = getFilteredBots
          [⟨"u1", ⟨StatusType.error, "A", "m1"⟩⟩, ⟨"u2", ⟨StatusType.error, "A", "m2"⟩⟩,
            ⟨"u3", ⟨StatusType.error, "B", "x"⟩⟩]
          ["A", "B"] ["A::m1"] :=
  inert_subtype_toggle_preserves_filter
    [⟨"u1", ⟨StatusType.error, "A", "m1"⟩⟩, ⟨"u2", ⟨StatusType.error, "A", "m2"⟩⟩,
      ⟨"u3", ⟨StatusType.error, "B", "x"⟩⟩]
    ["A", "B"] ["A::m1"] ["A::m1", "B::x"] "B::x"
    (by decide) (by decide) (Or.inl (by decide)) (by decide) (by decide)

/-- C1 counterexample: adding the subtype key `"B::x"` — whose parent `"B"`
is not expandable — to an *empty* subtype selection changes the filter
output: it activates uuid filtering, which drops the records of the
expandable selected category `"A"`. -/
theorem inert_subtype_toggle_changes_filter_from_empty :
    canExpand
        [⟨"u1", ⟨StatusType.error, "A", "m1"⟩⟩, ⟨"u2", ⟨StatusType.error, "A", "m2"⟩⟩,
          ⟨"u3", ⟨StatusType.error, "B", "x"⟩⟩] "B" = false ∧
      getFilteredBots
          [⟨"u1", ⟨StatusType.error, "A", "m1"⟩⟩, ⟨"u2", ⟨StatusType.error, "A", "m2"⟩⟩,
            ⟨"u3", ⟨StatusType.error, "B", "x"⟩⟩]
          ["A", "B"] (insertSubtype "B::x" [])
        ≠ getFilteredBots
            [⟨"u1", ⟨StatusType.error, "A", "m1"⟩⟩, ⟨"u2", ⟨StatusType.error, "A", "m2"⟩⟩,
              ⟨"u3", ⟨StatusType.error, "B", "x"⟩⟩]
            ["A", "B"] [] := by
  decide

/-- Non-critical error categories excluded from the default selection
(`NON_CRITICAL_ERRORS` in the selected-error context). -/
def NON_CRITICAL_ERRORS : List String :=
  ["Bot Not Accepted", "Insufficient Tokens", "Invalid Meeting URL",
    "Meeting Already Started", "Meeting Start Timeout", "Webhook Error"]

/-- The `defaultErrorValues` list: the available categories minus the non-critical
denylist. -/
def defaultErrorValues (allErrorValues : List String) : List String :=
  allErrorValues.filter (fun v => !decide (v ∈ NON_CRITICAL_ERRORS))

/-- The content of a persisted storage slot or of a storage-event payload:
absent (`null` or empty string, which the storage handler treats as falsy),
unparsable JSON, or a parsed list of strings. -/
inductive Payload
  | absent
  | bad
  | good (values : List String)
deriving DecidableEq, Repr

/-- One session of the selected-error provider after a React commit:
the available categories (names of `initialErrorDistribution`), the record
collection (`allBots`), the two state variables, the derived filtered set,
and the two persisted storage slots. -/
structure Session where
  avail : List String
  bots : List FormattedBotData
  selected : List String
  subtypes : List String
  filtered : List FormattedBotData
  storCat : Payload
  storSub : Payload
deriving DecidableEq, Repr

/-- The `updateSelectedValues` helper: set the selection, recompute the filtered set,
and write the categories storage key. -/
def updateSelectedValues (s : Session) (vs : List String) : Session :=
  { s with
    selected := vs
    filtered := getFilteredBots s.bots vs s.subtypes
    storCat := Payload.good vs }

/-- The `setSelectedSubtypes` helper: set the subtype selection, recompute the filtered
set, and write the subtypes storage key. -/
def setSelectedSubtypes (s : Session) (ks : List String) : Session :=
  { s with
    subtypes := ks
    filtered := getFilteredBots s.bots s.selected ks
    storSub := Payload.good ks }

/-- The pruning effect: intersect the selection with the available
categories; when this shrinks it, adopt and persist the shrunk selection
(`updateSelectedValues(validSelectedValues)`), otherwise do nothing. -/
def prune (s : Session) : Session :=
  let valid := s.selected.filter (fun v => decide (v ∈ s.avail))
  if valid.length ≠ s.selected.length then updateSelectedValues s valid else s

/-- The filtered-set synchronization effect: recompute `filteredBots` from
the current selection (the `useEffect` on `allBots`/selection changes). -/
def recomputeFiltered (s : Session) : Session :=
  { s with filtered := getFilteredBots s.bots s.selected s.subtypes }

/-- The effects that run after each React commit: pruning, then the
filtered-set recomputation. -/
def runEffects (s : Session) : Session := recomputeFiltered (prune s)

/-- Hydration of `selectedErrorValues` from a stored payload: absent or
unparsable storage falls back to the default selection; a parsed list is
validated against the available categories. -/
def hydrateSelected (avail : List String) : Payload → List String
  | Payload.absent => defaultErrorValues avail
  | Payload.bad => defaultErrorValues avail
  | Payload.good l => l.filter (fun v => decide (v ∈ avail))

/-- Hydration of `selectedSubtypes` from a stored payload: absent or
unparsable storage yields the empty set; a parsed list is adopted as a set
(duplicates collapsed) without taxonomy validation. -/
def hydrateSubtypes : Payload → List String
  | Payload.absent => []
  | Payload.bad => []
  | Payload.good l => uniqueKeys l

/-- A fresh session: hydrate both state variables from storage, then let the
mount effects run (`filteredBots` starts as `allBots` and is immediately
recomputed). -/
def hydrate (avail : List String) (bots : List FormattedBotData) (pc ps : Payload) :
    Session :=
  runEffects
    { avail := avail
      bots := bots
      selected := hydrateSelected avail pc
      subtypes := hydrateSubtypes ps
      filtered := bots
      storCat := pc
      storSub := ps }

/-- The operations that can hit a live session: the public mutators of the
context, cross-session storage events on either key, and a dataset refresh
(new `allBots` / `initialErrorDistribution` props). -/
inductive Op
  | addCat (v : String)
  | removeCat (v : String)
  | selectAllOp (vs : List String)
  | selectNoneOp
  | selectDefaultOp
  | resetOp
  | addSub (k : String)
  | removeSub (k : String)
  | clearSubs (c : String)
  | evCat (p : Payload)
  | evSub (p : Payload)
  | refresh (avail : List String) (bots : List FormattedBotData)
deriving Repr

/-- The state change performed by each operation's handler (before effects):
a direct transcription of `addErrorValue`, `removeErrorValue`, `selectAll`,
`selectNone`, `selectDefault`, `reset`, `addSubtype`, `removeSubtype`,
`clearSubtypesForError`, `handleStorageChange`, and a props refresh. -/
def applyOp (s : Session) : Op → Session
  | Op.addCat v => updateSelectedValues s (s.selected ++ [v])
  | Op.removeCat v => updateSelectedValues s (s.selected.filter (fun x => decide (x ≠ v)))
  | Op.selectAllOp vs => updateSelectedValues s vs
  | Op.selectNoneOp => setSelectedSubtypes (updateSelectedValues s []) []
  | Op.selectDefaultOp =>
    setSelectedSubtypes (updateSelectedValues s (defaultErrorValues s.avail)) []
  | Op.resetOp => setSelectedSubtypes (updateSelectedValues s s.avail) []
  | Op.addSub k => setSelectedSubtypes s (insertSubtype k s.subtypes)
  | Op.removeSub k => setSelectedSubtypes s (s.subtypes.filter (fun x => decide (x ≠ k)))
  | Op.clearSubs c =>
    setSelectedSubtypes s (s.subtypes.filter (fun x => !(x.startsWith (c ++ "::"))))
  | Op.evCat Payload.absent => s
  | Op.evCat Payload.bad => updateSelectedValues s s.avail
  | Op.evCat (Payload.good l) =>
    updateSelectedValues s (l.filter (fun v => decide (v ∈ s.avail)))
  | Op.evSub Payload.absent => s
  | Op.evSub Payload.bad => setSelectedSubtypes s []
  | Op.evSub (Payload.good l) => setSelectedSubtypes s (uniqueKeys l)
  | Op.refresh a b => { s with avail := a, bots := b }

/-- One operation applied to a live session: the handler's state change,
followed by the post-commit effects.  A storage event whose new value is
absent triggers no state change, hence no re-render and no effects. -/
def step (s : Session) : Op → Session
  | Op.evCat Payload.absent => s
  | Op.evSub Payload.absent => s
  | op => runEffects (applyOp s op)

/-- A session after a sequence of operations. -/
def runOps (s : Session) (ops : List Op) : Session := ops.foldl step s

/-- A filter that keeps the whole length kept the whole list. -/
theorem filter_eq_of_length_eq {α : Type} (l : List α) (p : α → Bool)
    (h : (l.filter p).length = l.length) : l.filter p = l :=
  (List.filter_sublist l).eq_of_length h

/-- Pruning is the identity whenever the selection is already a subset of
the available categories. -/
theorem prune_of_subset (s : Session) (h : ∀ v ∈ s.selected, v ∈ s.avail) :
    prune s = s := by
  unfold prune
  have heq : s.selected.filter (fun v => decide (v ∈ s.avail)) = s.selected := by
    apply List.filter_eq_self.mpr
    intro v hv
    simpa using h v hv
  rw [heq]
  simp

/-- Pruning never touches the availability, records, subtypes, or the
subtype storage slot. -/
theorem prune_fields (s : Session) :
    (prune s).avail = s.avail ∧ (prune s).bots = s.bots ∧
      (prune s).subtypes = s.subtypes ∧ (prune s).storSub = s.storSub := by
  unfold prune updateSelectedValues
  by_cases h : (s.selected.filter fun v => decide (v ∈ s.avail)).length = s.selected.length
  · simp [h]
  · simp [h]

/-- After the post-commit effects, the selection is a subset of the
available categories. -/
theorem runEffects_selected_subset (s : Session) :
    ∀ v ∈ (runEffects s).selected, v ∈ (runEffects s).avail := by
  intro v hv
  unfold runEffects recomputeFiltered at hv ⊢
  simp only at hv ⊢
  rw [(prune_fields s).1]
  unfold prune at hv
  by_cases h : (s.selected.filter fun v => decide (v ∈ s.avail)).length = s.selected.length
  · simp only [h, ne_eq, not_true_eq_false, if_false] at hv
    have := List.filter_eq_self.mp (filter_eq_of_length_eq _ _ h) v hv
    simpa using this
  · simp only [ne_eq, h, not_false_iff, if_true, updateSelectedValues] at hv
    exact (by simpa using (List.mem_filter.mp hv).2)

/-- Stepping preserves the selection-subset invariant. -/
theorem step_selected_subset (s : Session) (op : Op)
    (h : ∀ v ∈ s.selected, v ∈ s.avail) :
    ∀ v ∈ (step s op).selected, v ∈ (step s op).avail := by
  cases op with
  | evCat p =>
    cases p with
    | absent => exact h
    | bad => exact runEffects_selected_subset _
    | good l => exact runEffects_selected_subset _
  | evSub p =>
    cases p with
    | absent => exact h
    | bad => exact runEffects_selected_subset _
    | good l => exact runEffects_selected_subset _
  | addCat v => exact runEffects_selected_subset _
  | removeCat v => exact runEffects_selected_subset _
  | selectAllOp vs => exact runEffects_selected_subset _
  | selectNoneOp => exact runEffects_selected_subset _
  | selectDefaultOp => exact runEffects_selected_subset _
  | resetOp => exact runEffects_selected_subset _
  | addSub k => exact runEffects_selected_subset _
  | removeSub k => exact runEffects_selected_subset _
  | clearSubs c => exact runEffects_selected_subset _
  | refresh a b => exact runEffects_selected_subset _

/-- Any operation sequence preserves the selection-subset invariant. -/
theorem runOps_selected_subset (ops : List Op) :
    ∀ s : Session, (∀ v ∈ s.selected, v ∈ s.avail) →
      ∀ v ∈ (runOps s ops).selected, v ∈ (runOps s ops).avail := by
  induction ops with
  | nil => intro s h; exact h
  | cons op rest ih =>
    intro s h
    exact ih (step s op) (step_selected_subset s op h)

/-- A dataset refresh intersects the selection with the new availability. -/
theorem step_refresh_selected (s : Session) (a2 : List String)
    (b2 : List FormattedBotData) :
    (step s (Op.refresh a2 b2)).selected = s.selected.filter (fun v => decide (v ∈ a2)) := by
  show (runEffects { s with avail := a2, bots := b2 }).selected = _
  unfold runEffects recomputeFiltered prune
  by_cases h : (s.selected.filter fun v => decide (v ∈ a2)).length = s.selected.length
  · simp only [h]
    simp only [ne_eq, not_true_eq_false, if_false]
    exact (filter_eq_of_length_eq _ _ h).symm
  · simp only [ne_eq, h, not_false_iff, if_true, updateSelectedValues]

/-- A dataset refresh that shrinks the selection persists the shrunk set. -/
theorem step_refresh_persists (s : Session) (a2 : List String)
    (b2 : List FormattedBotData)
    (h : (step s (Op.refresh a2 b2)).selected.length ≠ s.selected.length) :
    (step s (Op.refresh a2 b2)).storCat
      = Payload.good ((step s (Op.refresh a2 b2)).selected) := by
  rw [step_refresh_selected] at h ⊢
  show (runEffects { s with avail := a2, bots := b2 }).storCat = _
  unfold runEffects recomputeFiltered prune
  simp only [ne_eq, h, not_false_iff, if_true, updateSelectedValues]

/-- C3: from hydration, after any sequence of operations the selection is a
subset of the currently available categories; a dataset refresh intersects
the selection with the new availability, and when that shrinks it, the
shrunk selection is immediately written to the categories storage slot. -/
theorem selected_subset_and_prune_persists (avail : List String)
    (bots : List FormattedBotData) (pc ps : Payload) (ops : List Op)
    (a2 : List String) (b2 : List FormattedBotData) :
    (∀ v ∈ (runOps (hydrate avail bots pc ps) ops).selected,
        v ∈ (runOps (hydrate avail bots pc ps) ops).avail) ∧
      (step (runOps (hydrate avail bots pc ps) ops) (Op.refresh a2 b2)).selected
        = (runOps (hydrate avail bots pc ps) ops).selected.filter
            (fun v => decide (v ∈ a2)) ∧
      ((step (runOps (hydrate avail bots pc ps) ops) (Op.refresh a2 b2)).selected.length
          ≠ (runOps (hydrate avail bots pc ps) ops).selected.length →
        (step (runOps (hydrate avail bots pc ps) ops) (Op.refresh a2 b2)).storCat
          = Payload.good
              ((step (runOps (hydrate avail bots pc ps) ops) (Op.refresh a2 b2)).selected)) := by
  refine ⟨?_, step_refresh_selected _ _ _, step_refresh_persists _ _ _⟩
  apply runOps_selected_subset
  exact runEffects_selected_subset _

/-- C3 witness: a refresh to an empty taxonomy empties and persists the
selection, starting from a hydrated session with one available category. -/
theorem selected_subset_and_prune_persists_witness :
    (∀ v ∈ (runOps (hydrate ["A"] [] Payload.absent Payload.absent) []).selected,
        v ∈ (runOps (hydrate ["A"] [] Payload.absent Payload.absent) []).avail) ∧
      (step (runOps (hydrate ["A"] [] Payload.absent Payload.absent) [])
            (Op.refresh [] [])).storCat
        = Payload.good
            ((step (runOps (hydrate ["A"] [] Payload.absent Payload.absent) [])
              (Op.refresh [] [])).selected) := by
  have h := selected_subset_and_prune_persists ["A"] [] Payload.absent Payload.absent [] [] []
  exact ⟨h.1, h.2.2 (by decide)⟩

/-- C7: `selectNone` leaves the selection and the subtype selection empty;
`selectDefault` replaces the selection with the available categories minus
the non-critical denylist and clears every subtype selection. -/
theorem selectNone_selectDefault_spec (s : Session) :
    (step s Op.selectNoneOp).selected = [] ∧
      (step s Op.selectNoneOp).subtypes = [] ∧
      (step s Op.selectDefaultOp).selected
        = s.avail.filter (fun v => !decide (v ∈ NON_CRITICAL_ERRORS)) ∧
      (step s Op.selectDefaultOp).subtypes = [] := by
  have hnone : step s Op.selectNoneOp
      = runEffects (setSelectedSubtypes (updateSelectedValues s []) []) := rfl
  have hdef : step s Op.selectDefaultOp
      = runEffects (setSelectedSubtypes (updateSelectedValues s (defaultErrorValues s.avail)) []) :=
    rfl
  have hp1 : prune (setSelectedSubtypes (updateSelectedValues s []) [])
      = setSelectedSubtypes (updateSelectedValues s []) [] := by
    apply prune_of_subset
    intro v hv
    simp [setSelectedSubtypes, updateSelectedValues] at hv
  have hp2 : prune (setSelectedSubtypes (updateSelectedValues s (defaultErrorValues s.avail)) [])
      = setSelectedSubtypes (updateSelectedValues s (defaultErrorValues s.avail)) [] := by
    apply prune_of_subset
    intro v hv
    simp only [setSelectedSubtypes, updateSelectedValues] at hv
    exact (List.mem_filter.mp hv).1
  refine ⟨?_, ?_, ?_, ?_⟩
  · rw [hnone]
    unfold runEffects recomputeFiltered
    rw [hp1]
    rfl
  · rw [hnone]
    unfold runEffects recomputeFiltered
    rw [hp1]
    rfl
  · rw [hdef]
    unfold runEffects recomputeFiltered
    rw [hp2]
    rfl
  · rw [hdef]
    unfold runEffects recomputeFiltered
    rw [hp2]
    rfl

/-- C8 (amended): for an available category `c` (and a selection already
within the available set, as the pruning invariant guarantees),
`addErrorValue(c)` appends `c` to the selection — making it a member, though
an already-present category is appended again rather than left unchanged —
and `removeErrorValue(c)` removes every occurrence; both write the new
selection to the categories storage slot and recompute the filtered set. -/
theorem addRemoveCategory_spec (s : Session) (c : String) (hc : c ∈ s.avail)
    (hinv : ∀ v ∈ s.selected, v ∈ s.avail) :
    (step s (Op.addCat c)).selected = s.selected ++ [c] ∧
      c ∈ (step s (Op.addCat c)).selected ∧
      (step s (Op.addCat c)).storCat = Payload.good (s.selected ++ [c]) ∧
      (step s (Op.addCat c)).filtered
        = getFilteredBots s.bots (s.selected ++ [c]) s.subtypes ∧
      (step s (Op.removeCat c)).selected = s.selected.filter (fun x => decide (x ≠ c)) ∧
      c ∉ (step s (Op.removeCat c)).selected ∧
      (step s (Op.removeCat c)).storCat
        = Payload.good (s.selected.filter (fun x => decide (x ≠ c))) ∧
      (step s (Op.removeCat c)).filtered
        = getFilteredBots s.bots (s.selected.filter (fun x => decide (x ≠ c))) s.subtypes := by
  have hadd : step s (Op.addCat c)
      = runEffects (updateSelectedValues s (s.selected ++ [c])) := rfl
  have hrem : step s (Op.removeCat c)
      = runEffects (updateSelectedValues s (s.selected.filter (fun x => decide (x ≠ c)))) := rfl
  have hpa : prune (updateSelectedValues s (s.selected ++ [c]))
      = updateSelectedValues s (s.selected ++ [c]) := by
    apply prune_of_subset
    intro v hv
    simp only [updateSelectedValues] at hv ⊢
    rcases List.mem_append.mp hv with h | h
    · exact hinv v h
    · rw [List.mem_singleton.mp h]
      exact hc
  have hpr : prune (updateSelectedValues s (s.selected.filter (fun x => decide (x ≠ c))))
      = updateSelectedValues s (s.selected.filter (fun x => decide (x ≠ c))) := by
    apply prune_of_subset
    intro v hv
    simp only [updateSelectedValues] at hv ⊢
    exact hinv v (List.mem_filter.mp hv).1
  refine ⟨?_, ?_, ?_, ?_, ?_, ?_, ?_, ?_⟩
  · rw [hadd]; unfold runEffects recomputeFiltered; rw [hpa]; rfl
  · rw [hadd]; unfold runEffects recomputeFiltered; rw [hpa]
    show c ∈ s.selected ++ [c]
    exact List.mem_append.mpr (Or.inr (List.mem_singleton.mpr rfl))
  · rw [hadd]; unfold runEffects recomputeFiltered; rw [hpa]; rfl
  · rw [hadd]; unfold runEffects recomputeFiltered; rw [hpa]; rfl
  · rw [hrem]; unfold runEffects recomputeFiltered; rw [hpr]; rfl
  · rw [hrem]; unfold runEffects recomputeFiltered; rw [hpr]
    show c ∉ s.selected.filter (fun x => decide (x ≠ c))
    intro hmem
    have := (List.mem_filter.mp hmem).2
    simp at this
  · rw [hrem]; unfold runEffects recomputeFiltered; rw [hpr]; rfl
  · rw [hrem]; unfold runEffects recomputeFiltered; rw [hpr]; rfl

/-- C8 witness: concrete add/remove on a hydrated two-category session. -/
theorem addRemoveCategory_spec_witness :
    "B" ∈ (step (hydrate ["A", "B"] [] Payload.absent Payload.absent) (Op.addCat "B")).selected ∧
      "B" ∉ (step (hydrate ["A", "B"] [] Payload.absent Payload.absent)
        (Op.removeCat "B")).selected := by
  have h := addRemoveCategory_spec (hydrate ["A", "B"] [] Payload.absent Payload.absent) "B"
    (by decide) (by decide)
  exact ⟨h.2.1, h.2.2.2.2.2.1⟩

/-- C8 counterexample: the selection is an ordered list, not a set — adding
an already-present category appends a duplicate entry instead of leaving the
selection unchanged. -/
theorem addCategory_duplicates_existing_entry :
    "A" ∈ (hydrate ["A"] [] Payload.absent Payload.absent).selected ∧
      (step (hydrate ["A"] [] Payload.absent Payload.absent) (Op.addCat "A")).selected
        ≠ (hydrate ["A"] [] Payload.absent Payload.absent).selected := by
  decide

/-- C10: a cross-session storage event on either persisted key whose new
value is absent (null or empty) is ignored entirely: the selection, the
subtype selection, the filtered set, and both storage slots are unchanged. -/
theorem absent_storage_event_ignored (s : Session) :
    step s (Op.evCat Payload.absent) = s ∧ step s (Op.evSub Payload.absent) = s :=
  ⟨rfl, rfl⟩

/-- When the selection is already within the available set, the post-commit
effects leave it unchanged. -/
theorem runEffects_selected_of_subset (s : Session)
    (h : ∀ v ∈ s.selected, v ∈ s.avail) : (runEffects s).selected = s.selected := by
  show (prune s).selected = s.selected
  rw [prune_of_subset s h]

/-- Hydration adopts exactly the validated stored selection. -/
theorem hydrate_selected (avail : List String) (bots : List FormattedBotData)
    (pc ps : Payload) : (hydrate avail bots pc ps).selected = hydrateSelected avail pc := by
  unfold hydrate
  rw [runEffects_selected_of_subset]
  intro v hv
  simp only at hv ⊢
  cases pc with
  | absent => exact (List.mem_filter.mp hv).1
  | bad => exact (List.mem_filter.mp hv).1
  | good l => simpa using (List.mem_filter.mp hv).2

/-- C5 (amended): a parsable cross-session notification on the *categories*
key is intersected with the currently available categories — exactly the
validation applied at initial hydration — and the filtered set is
recomputed; an unparsable one falls back to the full category set.  A
parsable notification on the *subtypes* key is adopted verbatim (as a set,
duplicates collapsed) with **no** taxonomy intersection — matching its
hydration path, which applies none either — and the filtered set is
recomputed; an unparsable one falls back to the empty subtype set. -/
theorem storage_event_validation_spec (s : Session) (l : List String) :
    (step s (Op.evCat (Payload.good l))).selected
        = l.filter (fun v => decide (v ∈ s.avail)) ∧
      (hydrate s.avail s.bots (Payload.good l) s.storSub).selected
        = l.filter (fun v => decide (v ∈ s.avail)) ∧
      (step s (Op.evCat (Payload.good l))).filtered
        = getFilteredBots s.bots (l.filter (fun v => decide (v ∈ s.avail))) s.subtypes ∧
      (step s (Op.evCat Payload.bad)).selected = s.avail ∧
      (step s (Op.evSub (Payload.good l))).subtypes = uniqueKeys l ∧
      (step s (Op.evSub (Payload.good l))).filtered
        = getFilteredBots s.bots ((step s (Op.evSub (Payload.good l))).selected)
            (uniqueKeys l) ∧
      (step s (Op.evSub Payload.bad)).subtypes = [] := by
  have hgood : prune (updateSelectedValues s (l.filter (fun v => decide (v ∈ s.avail))))
      = updateSelectedValues s (l.filter (fun v => decide (v ∈ s.avail))) := by
    apply prune_of_subset
    intro v hv
    simp only [updateSelectedValues] at hv ⊢
    simpa using (List.mem_filter.mp hv).2
  have hbadp : prune (updateSelectedValues s s.avail) = updateSelectedValues s s.avail := by
    apply prune_of_subset
    intro v hv
    simpa only [updateSelectedValues] using hv
  refine ⟨?_, ?_, ?_, ?_, ?_, ?_, ?_⟩
  · show (recomputeFiltered (prune (updateSelectedValues s
        (l.filter (fun v => decide (v ∈ s.avail)))))).selected = _
    rw [hgood]
    rfl
  · rw [hydrate_selected]
    rfl
  · show (recomputeFiltered (prune (updateSelectedValues s
        (l.filter (fun v => decide (v ∈ s.avail)))))).filtered = _
    rw [hgood]
    rfl
  · show (recomputeFiltered (prune (updateSelectedValues s s.avail))).selected = _
    rw [hbadp]
    rfl
  · show (prune (setSelectedSubtypes s (uniqueKeys l))).subtypes = _
    rw [(prune_fields _).2.2.1]
    rfl
  · show getFilteredBots (prune (setSelectedSubtypes s (uniqueKeys l))).bots
        (prune (setSelectedSubtypes s (uniqueKeys l))).selected
        (prune (setSelectedSubtypes s (uniqueKeys l))).subtypes
      = getFilteredBots s.bots
          (prune (setSelectedSubtypes s (uniqueKeys l))).selected (uniqueKeys l)
    rw [(prune_fields _).2.1, (prune_fields _).2.2.1]
    rfl
  · show (prune (setSelectedSubtypes s [])).subtypes = _
    rw [(prune_fields _).2.2.1]
    rfl

/-- The composite subtype keys offered by the current record collection
(the taxonomy a validating reconciliation would intersect against);
spec-side definition used to compare the code against the claim. -/
def availableSubtypeKeys (bots : List FormattedBotData) : List String :=
  (errorTableOf bots).map subtypeKeyOf

/-- C5 counterexample: a parsable subtypes notification is *not* intersected
against the available taxonomy — a key naming a category absent from the
record collection is adopted verbatim, where the claimed intersection would
have dropped it. -/
theorem subtype_storage_event_not_validated :
    (step (hydrate ["A"] [⟨"u1", ⟨StatusType.error, "A", "m1"⟩⟩]
          Payload.absent Payload.absent)
        (Op.evSub (Payload.good ["Z::z"]))).subtypes
      ≠ (["Z::z"].filter (fun k => decide (k ∈ availableSubtypeKeys
          [⟨"u1", ⟨StatusType.error, "A", "m1"⟩⟩]))) := by
  decide

/-- JavaScript division guarded for verification: `none` exactly when the
divisor is zero (a real `x / 0` would produce `NaN`/`Infinity`). -/
def jsDiv (a b : ℚ) : Option ℚ := if b = 0 then none else some (a / b)

/-- The error/warning records among a list
(`bots.filter(b => ["error","warning"].includes(b.status.type)).length`). -/
def errWarnCount (bots : List FormattedBotData) : Nat := (bots.filter isErrWarn).length

/-- One row of `expandedErrorData`: a main error type, or (when expanded) a
subtype row with a back-reference to its parent. -/
structure ExpandedErrorItem where
  name : String
  value : Nat
  percentage : Option ℚ
  isSubtype : Bool
  parentType : Option String
  botUuids : Option (List String)
deriving DecidableEq, Repr

/-- The `expandedErrorData` of the error-distribution card: for each category of
`errorDistributionData` (here its names), a main row whose count is the
currently filtered count and whose percentage is taken over all filtered
error/warning records, followed — when the category is expanded and has more
than one subtype in the selection-scoped table — by one row per subtype,
with percentage taken over the parent's filtered count.  Percentages guard
on the parent count being positive and define the result as 0 otherwise. -/
def expandedErrorData (errorDistributionData expandedErrors : List String)
    (aeb lfb : List FormattedBotData) : List ExpandedErrorItem :=
  let allErrorTableData := getErrorTable (groupByValue aeb)
  errorDistributionData.flatMap (fun name =>
    let currentFilteredCount :=
      (lfb.filter (fun b => isErrWarn b && decide (b.status.value = name))).length
    let mainPct : Option ℚ :=
      if 0 < currentFilteredCount then
        (jsDiv currentFilteredCount (errWarnCount lfb)).map (fun q => q * 100)
      else some 0
    let mainItem : ExpandedErrorItem :=
      ⟨name, currentFilteredCount, mainPct, false, none, none⟩
    let subItems :=
      if decide (name ∈ expandedErrors) then
        let subtypes := allErrorTableData.filter (fun e => decide (e.originalType = name))
        if 1 < subtypes.length then
          subtypes.map (fun st =>
            let subtypeName := if st.type = name then st.message else st.type
            let currentSubtypeCount :=
              (lfb.filter (fun b => decide (b.uuid ∈ st.botUuids))).length
            let subPct : Option ℚ :=
              if 0 < currentFilteredCount then
                (jsDiv currentSubtypeCount currentFilteredCount).map (fun q => q * 100)
              else some 0
            ⟨subtypeName, currentSubtypeCount, subPct, true, some name, some st.botUuids⟩)
        else []
      else []
    mainItem :: subItems)

/-- One slice of the chart data built by the filtered-data effect. -/
structure ChartEntry where
  name : String
  value : Nat
  percentage : Option ℚ
  isSubtype : Bool
  parentType : Option String
deriving DecidableEq, Repr

/-- The chart data recomputed by the filtered-data effect: empty when no
category is selected; otherwise, for each selected category with a nonzero
filtered count, either its expanded subtype slices (those with nonzero
count) or a single main slice, every percentage taken over all filtered
error/warning records. -/
def chartData (errorDistributionData selectedErrorValues expandedErrors : List String)
    (aeb lfb : List FormattedBotData) : List ChartEntry :=
  if selectedErrorValues.isEmpty then []
  else
    let filteredErrorBots := lfb.filter isErrWarn
    (errorDistributionData.filter (fun n => decide (n ∈ selectedErrorValues))).flatMap
      (fun name =>
        let currentCount :=
          (filteredErrorBots.filter (fun b => decide (b.status.value = name))).length
        if currentCount = 0 then []
        else if decide (name ∈ expandedErrors) then
          let subtypes := (getErrorTable (groupByValue aeb)).filter
            (fun e => decide (e.originalType = name))
          if 1 < subtypes.length then
            subtypes.flatMap (fun st =>
              let subtypeName := if st.type = name then st.message else st.type
              let currentSubtypeCount :=
                (lfb.filter (fun b => decide (b.uuid ∈ st.botUuids))).length
              if 0 < currentSubtypeCount then
                [⟨subtypeName, currentSubtypeCount,
                  (jsDiv currentSubtypeCount filteredErrorBots.length).map (fun q => q * 100),
                  true, some name⟩]
              else [])
          else
            [⟨name, currentCount,
              (jsDiv currentCount filteredErrorBots.length).map (fun q => q * 100),
              false, none⟩]
        else
          [⟨name, currentCount,
            (jsDiv currentCount filteredErrorBots.length).map (fun q => q * 100),
            false, none⟩])

/-- The claimed percentage formula: `count / totalInScope * 100` when the
in-scope total is positive, and exactly 0 when it is 0. -/
def mkPct (v scope : Nat) : ℚ := if scope = 0 then 0 else (v : ℚ) / (scope : ℚ) * 100

/-- Guarded division matches the claimed formula on a nonzero scope. -/
theorem jsDiv_formula (v scope : Nat) (h : scope ≠ 0) :
    (jsDiv (v : ℚ) (scope : ℚ)).map (fun q => q * 100) = some (mkPct v scope) := by
  unfold jsDiv mkPct
  rw [if_neg (by exact_mod_cast h), if_neg h]
  rfl

/-- A zero count yields a zero percentage under the claimed formula. -/
theorem mkPct_zero (scope : Nat) : mkPct 0 scope = 0 := by
  unfold mkPct
  by_cases h : scope = 0
  · rw [if_pos h]
  · rw [if_neg h]
    simp

/-- A conjunctive filter is no longer than the filter on its first
conjunct. -/
theorem length_filter_and_le (l : List FormattedBotData) (p q : FormattedBotData → Bool) :
    (l.filter (fun b => p b && q b)).length ≤ (l.filter p).length := by
  have hcomm : l.filter (fun b => p b && q b) = l.filter (fun b => q b && p b) := by
    apply List.filter_congr
    intro b _
    exact Bool.and_comm _ _
  rw [hcomm, ← List.filter_filter]
  exact List.length_filter_le _ _

/-- C9: every row produced by the aggregator carries a defined percentage —
never a division by zero — equal to `count / totalInScope * 100` when the
in-scope total is positive and to 0 when it is 0; for main rows (in both
`expandedErrorData` and the chart data) the in-scope total is the number of
filtered error/warning records, for `expandedErrorData` subtype rows it is
the parent category's filtered count. -/
theorem aggregator_percentages_safe (dist expanded sel : List String)
    (aeb lfb : List FormattedBotData) :
    (∀ it ∈ expandedErrorData dist expanded aeb lfb,
        ∃ q : ℚ, it.percentage = some q ∧
          ((it.isSubtype = false ∧ q = mkPct it.value (errWarnCount lfb)) ∨
            (it.isSubtype = true ∧ ∃ p, it.parentType = some p ∧
              q = mkPct it.value
                ((lfb.filter (fun b => isErrWarn b && decide (b.status.value = p))).length)))) ∧
      ∀ it ∈ chartData dist sel expanded aeb lfb,
        ∃ q : ℚ, it.percentage = some q ∧ q = mkPct it.value (errWarnCount lfb) := by
  constructor
  · intro it hit
    unfold expandedErrorData at hit
    obtain ⟨name, _, hit⟩ := List.mem_flatMap.mp hit
    simp only at hit
    rcases List.mem_cons.mp hit with rfl | hsub
    · by_cases hcnt : 0 <
        (lfb.filter (fun b => isErrWarn b && decide (b.status.value = name))).length
      · have htot : errWarnCount lfb ≠ 0 := by
          have hle := length_filter_and_le lfb isErrWarn
            (fun b => decide (b.status.value = name))
          unfold errWarnCount
          omega
        refine ⟨mkPct _ (errWarnCount lfb), ?_, Or.inl ⟨rfl, rfl⟩⟩
        simp only [if_pos hcnt]
        exact jsDiv_formula _ _ htot
      · have hz : (lfb.filter (fun b => isErrWarn b && decide (b.status.value = name))).length
            = 0 := by omega
        refine ⟨0, ?_, Or.inl ⟨rfl, ?_⟩⟩
        · simp only [if_neg hcnt]
        · simp only [hz, mkPct_zero]
    · by_cases hexp : decide (name ∈ expanded) = true
      · rw [if_pos hexp] at hsub
        by_cases hlen : 1 < ((getErrorTable (groupByValue aeb)).filter
            (fun e => decide (e.originalType = name))).length
        · rw [if_pos hlen] at hsub
          obtain ⟨st, _, rfl⟩ := List.mem_map.mp hsub
          by_cases hcnt : 0 <
              (lfb.filter (fun b => isErrWarn b && decide (b.status.value = name))).length
          · refine ⟨mkPct _ _, ?_, Or.inr ⟨rfl, name, rfl, rfl⟩⟩
            simp only [if_pos hcnt]
            exact jsDiv_formula _ _ (by omega)
          · refine ⟨0, ?_, Or.inr ⟨rfl, name, rfl, ?_⟩⟩
            · simp only [if_neg hcnt]
            · have hz : (lfb.filter
                  (fun b => isErrWarn b && decide (b.status.value = name))).length = 0 := by
                omega
              rw [hz, mkPct]
              simp
        · rw [if_neg hlen] at hsub
          exact absurd hsub (List.not_mem_nil _)
      · rw [if_neg hexp] at hsub
        exact absurd hsub (List.not_mem_nil _)
  · intro it hit
    unfold chartData at hit
    by_cases hsel : sel.isEmpty
    · rw [if_pos hsel] at hit
      exact absurd hit (List.not_mem_nil _)
    · rw [if_neg hsel] at hit
      obtain ⟨name, _, hit⟩ := List.mem_flatMap.mp hit
      simp only at hit
      by_cases hcnt :
          ((lfb.filter isErrWarn).filter (fun b => decide (b.status.value = name))).length = 0
      · rw [if_pos hcnt] at hit
        exact absurd hit (List.not_mem_nil _)
      · rw [if_neg hcnt] at hit
        have htot : (lfb.filter isErrWarn).length ≠ 0 := by
          have := List.length_filter_le (fun b => decide (b.status.value = name))
            (lfb.filter isErrWarn)
          omega
        have hmain : ∀ cnt : Nat,
            it ∈ ([⟨name, cnt,
                (jsDiv (cnt : ℚ) ((lfb.filter isErrWarn).length : ℚ)).map (fun q => q * 100),
                false, none⟩] : List ChartEntry) →
            ∃ q : ℚ, it.percentage = some q ∧ q = mkPct it.value (errWarnCount lfb) := by
          intro cnt hm
          rw [List.mem_singleton.mp hm]
          exact ⟨mkPct cnt (errWarnCount lfb), jsDiv_formula _ _ htot, rfl⟩
        by_cases hexp : decide (name ∈ expanded) = true
        · rw [if_pos hexp] at hit
          by_cases hlen : 1 < ((getErrorTable (groupByValue aeb)).filter
              (fun e => decide (e.originalType = name))).length
          · rw [if_pos hlen] at hit
            obtain ⟨st, _, hit⟩ := List.mem_flatMap.mp hit
            by_cases hsub : 0 < (lfb.filter (fun b => decide (b.uuid ∈ st.botUuids))).length
            · rw [if_pos hsub] at hit
              rw [List.mem_singleton.mp hit]
              exact ⟨mkPct _ (errWarnCount lfb), jsDiv_formula _ _ htot, rfl⟩
            · rw [if_neg hsub] at hit
              exact absurd hit (List.not_mem_nil _)
          · rw [if_neg hlen] at hit
            exact hmain _ hit
        · rw [if_neg hexp] at hit
          exact hmain _ hit

/-- C9 witness: on a one-record collection the aggregator's main row (in
both row-producing computations) carries the percentage `1 / 1 * 100`
required by the claimed formula. -/
theorem aggregator_percentages_safe_witness :
    ((jsDiv ((1 : Nat) : ℚ) ((1 : Nat) : ℚ)).map (fun r => r * 100) = some (mkPct 1 1)) ∧
      ((jsDiv ((1 : Nat) : ℚ) ((1 : Nat) : ℚ)).map (fun r => r * 100)
        = some (mkPct 1 1)) := by
  have h := aggregator_percentages_safe ["A"] [] ["A"] []
    [⟨"u1", ⟨StatusType.error, "A", "m"⟩⟩]
  constructor
  · obtain ⟨q, hq, hd⟩ := h.1
      ⟨"A", 1, (jsDiv ((1 : Nat) : ℚ) ((1 : Nat) : ℚ)).map (fun r => r * 100), false, none,
        none⟩
      (List.mem_cons_self _ _)
    rcases hd with ⟨_, hq2⟩ | ⟨hff, _⟩
    · exact hq.trans (congrArg some hq2)
    · exact absurd hff (by decide)
  · obtain ⟨q, hq, hq2⟩ := h.2
      ⟨"A", 1, (jsDiv ((1 : Nat) : ℚ) ((1 : Nat) : ℚ)).map (fun r => r * 100), false, none⟩
      (List.mem_cons_self _ _)
    exact hq.trans (congrArg some hq2)
